import Mathlib

/-
  Verification development for the budget-tracker-aws repository.

  Shallow embedding of the currency conversion / rate caching subsystem
  (src/utils/currency.ts, src/utils/rates-store.ts), of the recurrence
  engine (src/utils/recurrence.ts), and of the in-flight de-duplication
  discipline of createSnapshotGetter.

  Modelling conventions:
  - JS numbers used as monetary amounts and rates are modelled as rationals.
  - Timestamps (Date.now(), epoch ms) are modelled as naturals; the
    capturedAt ISO string of a snapshot is modelled by the capture epoch.
  - The environment-configured constants (CACHE_TTL_MS,
    CURRENCY_PERSISTED_FRESH_MS, RATE_PROVIDER, SUPPORTED_CURRENCIES) are
    carried as fields of the environment records, mirroring the fact that
    they are read from process.env.
  - Stateful code is modelled by explicit environment passing: an
    environment record holds the in-memory cache, the persistence store
    contents, and the outcome the upstream provider would deliver; each
    operation returns its result together with the updated cache and a log
    of the I/O it performed (persistence reads, upstream calls,
    persistence writes).
  - Fallible code returns Except String.
-/

namespace BudgetTracker

/-- The supported currency codes (src/types/budget.ts). -/
inductive CurrencyCode where
  | EUR | BGN | USD | GBP
deriving DecidableEq, Repr

/-- ExchangeRateSnapshot (src/types/budget.ts); capturedAt is modelled by
the capture epoch in ms, stale is the optional stale flag. -/
structure ExchangeRateSnapshot where
  fromCurrency : CurrencyCode
  toCurrency : CurrencyCode
  rate : ℚ
  provider : String
  capturedAt : ℕ
  stale : Option Bool := none
deriving DecidableEq, Repr

/-- An entry of the process-wide in-memory rate cache
(src/utils/currency.ts, RateCacheEntry). -/
structure RateCacheEntry where
  snapshot : ExchangeRateSnapshot
  expiresAt : ℕ
deriving DecidableEq, Repr

/-- Result of getPersistedRate (src/utils/rates-store.ts,
PersistedRateResult). -/
structure PersistedRateResult where
  snapshot : ExchangeRateSnapshot
  freshUntilEpoch : Option ℕ := none
deriving DecidableEq, Repr

/-- Environment of one fetchRate invocation: the current time, the
configured in-memory TTL and provider name, the current in-memory cache,
the persistence store contents, and the outcome the upstream provider
would deliver for each pair. -/
structure RateEnv where
  nowMs : ℕ
  cacheTtlMs : ℕ
  rateProvider : String
  cache : CurrencyCode → CurrencyCode → Option RateCacheEntry
  persisted : CurrencyCode → CurrencyCode → Option PersistedRateResult
  upstream : CurrencyCode → CurrencyCode → Except String ℚ

/-- Log of the I/O performed by one conversion call. -/
structure FetchLog where
  persistedReads : List (CurrencyCode × CurrencyCode) := []
  upstreamCalls : List (CurrencyCode × CurrencyCode) := []
  persistedWrites : List ExchangeRateSnapshot := []
deriving DecidableEq, Repr

/-- Result of resolving a snapshot: the outcome, the updated in-memory
cache and the I/O log. -/
structure FetchOutcome where
  result : Except String ExchangeRateSnapshot
  cache : CurrencyCode → CurrencyCode → Option RateCacheEntry
  log : FetchLog

/-- rememberRate (src/utils/currency.ts line 92): store a snapshot in the
in-memory cache, keyed by the snapshot's currency pair, expiring
CACHE_TTL_MS after now. -/
def rememberRate (env : RateEnv) (s : ExchangeRateSnapshot) :
    CurrencyCode → CurrencyCode → Option RateCacheEntry :=
  fun f t =>
    if f = s.fromCurrency ∧ t = s.toCurrency then
      some { snapshot := s, expiresAt := env.nowMs + env.cacheTtlMs }
    else env.cache f t

/-- The in-memory cache lookup guarded by expiry
(cached && cached.expiresAt > now, src/utils/currency.ts lines 59-62
and 113-118). -/
def cacheHit (env : RateEnv) (f t : CurrencyCode) : Option ExchangeRateSnapshot :=
  match env.cache f t with
  | some c => if env.nowMs < c.expiresAt then some c.snapshot else none
  | none => none

/-- The identity snapshot synthesized for from == to
(src/utils/currency.ts lines 103-111). -/
def identitySnapshot (env : RateEnv) (f t : CurrencyCode) : ExchangeRateSnapshot :=
  { fromCurrency := f, toCurrency := t, rate := 1, provider := env.rateProvider,
    capturedAt := env.nowMs, stale := none }

/-- isFreshRecord: persisted?.freshUntilEpoch !== undefined &&
persisted.freshUntilEpoch > nowMs (src/utils/currency.ts lines 121-124). -/
def isFreshRecord (p : PersistedRateResult) (nowMs : ℕ) : Bool :=
  match p.freshUntilEpoch with
  | some f => nowMs < f
  | none => false

/-- The try/catch block of fetchRate (src/utils/currency.ts lines
138-177): call the upstream provider; on success cache, persist and
return the fresh snapshot; on failure fall back to the previously read
persisted record marked stale, or re-throw when none exists. -/
def fetchRateUpstream (env : RateEnv) (f t : CurrencyCode)
    (persisted : Option PersistedRateResult) (log0 : FetchLog) : FetchOutcome :=
  match env.upstream f t with
  | .ok rate =>
    let snapshot : ExchangeRateSnapshot :=
      { fromCurrency := f, toCurrency := t, rate := rate,
        provider := env.rateProvider, capturedAt := env.nowMs, stale := some false }
    { result := .ok snapshot,
      cache := rememberRate env snapshot,
      log := { log0 with
               upstreamCalls := log0.upstreamCalls ++ [(f, t)]
               persistedWrites := log0.persistedWrites ++ [snapshot] } }
  | .error e =>
    match persisted with
    | some p =>
      let fallback : ExchangeRateSnapshot := { p.snapshot with stale := some true }
      { result := .ok fallback,
        cache := rememberRate env fallback,
        log := { log0 with upstreamCalls := log0.upstreamCalls ++ [(f, t)] } }
    | none =>
      { result := .error e, cache := env.cache,
        log := { log0 with upstreamCalls := log0.upstreamCalls ++ [(f, t)] } }

/-- fetchRate after the identity and in-memory-cache checks
(src/utils/currency.ts lines 120-177): read the persisted record; if it
is within its freshness window promote it (marked non-stale) into the
in-memory cache and return it, otherwise go upstream. -/
def fetchRateUncached (env : RateEnv) (f t : CurrencyCode) : FetchOutcome :=
  let log0 : FetchLog := { persistedReads := [(f, t)] }
  match env.persisted f t with
  | some p =>
    if isFreshRecord p env.nowMs then
      let freshSnapshot : ExchangeRateSnapshot := { p.snapshot with stale := some false }
      { result := .ok freshSnapshot,
        cache := rememberRate env freshSnapshot,
        log := log0 }
    else fetchRateUpstream env f t (some p) log0
  | none => fetchRateUpstream env f t none log0

/-- fetchRate (src/utils/currency.ts lines 99-178). -/
def fetchRate (env : RateEnv) (f t : CurrencyCode) : FetchOutcome :=
  if f = t then
    { result := .ok (identitySnapshot env f t), cache := env.cache, log := {} }
  else
    match cacheHit env f t with
    | some s => { result := .ok s, cache := env.cache, log := {} }
    | none => fetchRateUncached env f t

/-- One sequential call of the snapshot getter returned by
createSnapshotGetter (src/utils/currency.ts lines 54-75): check the
in-memory cache, then (the pending map being empty for a single
sequential call) delegate to fetchRate. -/
def getSnapshotOnce (env : RateEnv) (f t : CurrencyCode) : FetchOutcome :=
  match cacheHit env f t with
  | some s => { result := .ok s, cache := env.cache, log := {} }
  | none => fetchRate env f t

/-- Number.prototype.toFixed(2) followed by Number(...)
(src/utils/currency.ts line 190): for a non-negative value pick the
integer n closest to 100 * x, ties towards the larger n; a negative value
is rounded on its absolute value and the sign is re-attached. -/
def toFixed2 (x : ℚ) : ℚ :=
  if x < 0 then -((Int.floor ((-x) * 100 + 1 / 2) : ℚ) / 100)
  else (Int.floor (x * 100 + 1 / 2) : ℚ) / 100

/-- Modelled from the spec: standard round-half-away-from-zero to an
integer. -/
def roundHalfAwayFromZero (x : ℚ) : ℤ :=
  if 0 ≤ x then Int.floor (x + 1 / 2) else Int.ceil (x - 1 / 2)

/-- Modelled from the spec: rounding to 2 decimal places using
round-half-away-from-zero. -/
def round2 (x : ℚ) : ℚ :=
  (roundHalfAwayFromZero (x * 100) : ℚ) / 100

/-- Result of convertAmount: the converted amount with its snapshot,
plus the updated cache and I/O log. -/
structure ConvertOutcome where
  result : Except String (ℚ × ExchangeRateSnapshot)
  cache : CurrencyCode → CurrencyCode → Option RateCacheEntry
  log : FetchLog

/-- convertAmount (src/utils/currency.ts lines 182-193): resolve the
snapshot, multiply, and round the final product with toFixed(2). -/
def convertAmount (amount : ℚ) (f t : CurrencyCode) (env : RateEnv) : ConvertOutcome :=
  let o := getSnapshotOnce env f t
  { result := o.result.map fun s => (toFixed2 (amount * s.rate), s),
    cache := o.cache,
    log := o.log }

/-! Refresh orchestrator (src/utils/rates-store.ts). The model assumes a
configured store (RATES_TABLE_NAME set): with no table refreshAllRates
throws immediately and no claim concerns that mode. -/

/-- Environment of one refreshAllRates invocation: current time, the
configured freshness window and provider, the supported currency list,
the recorded last-refresh epoch (none when no meta record exists), and
the batched upstream response for each base currency: on success a map
from target code to its optional quoted value. -/
structure StoreEnv where
  nowMs : ℕ
  freshMs : ℕ
  provider : String
  supported : List CurrencyCode
  lastRefreshEpoch : Option ℕ
  batch : CurrencyCode → Except String (CurrencyCode → Option ℚ)

/-- RefreshRatesResult (src/utils/rates-store.ts lines 195-201). -/
structure RefreshRatesResult where
  refreshed : Bool
  updatedPairs : ℕ
  lastRefreshEpoch : ℕ
  nextAllowedRefreshEpoch : ℕ
  skippedReason : Option String := none
deriving DecidableEq, Repr

/-- Log of the upstream calls and writes of one refresh: the bases for
which a batched call was issued, the snapshots persisted, and the meta
record writes (epoch, manual flag). -/
structure RefreshLog where
  batchCalls : List CurrencyCode := []
  persistedWrites : List ExchangeRateSnapshot := []
  metaWrites : List (ℕ × Bool) := []
deriving DecidableEq, Repr

/-- Outcome of refreshAllRates. -/
structure RefreshOutcome where
  result : Except String RefreshRatesResult
  log : RefreshLog

/-- The targets.forEach body of fetchBatchRates (src/utils/rates-store.ts
lines 181-187): extract each target's value from the payload, throwing
on the first missing rate. -/
def collectRates (data : CurrencyCode → Option ℚ) :
    List CurrencyCode → Except String (List (CurrencyCode × ℚ))
  | [] => .ok []
  | t :: rest =>
    match data t with
    | some v => (collectRates data rest).map fun rs => (t, v) :: rs
    | none => .error "Exchange rate not found"

/-- fetchBatchRates (src/utils/rates-store.ts lines 159-189): one
upstream call for a base currency; a non-ok response or any missing
target rate is a failure. -/
def fetchBatchRates (env : StoreEnv) (base : CurrencyCode)
    (targets : List CurrencyCode) : Except String (List (CurrencyCode × ℚ)) :=
  match env.batch base with
  | .ok data => collectRates data targets
  | .error e => .error e

/-- The for-loop of refreshAllRates (src/utils/rates-store.ts lines
226-247): for each base, batch-fetch all other supported currencies and
persist every resulting pair, accumulating updatedPairs; any failure
aborts the loop. -/
def refreshLoop (env : StoreEnv) :
    List CurrencyCode → ℕ → RefreshLog → Except String ℕ × RefreshLog
  | [], updated, log => (.ok updated, log)
  | base :: rest, updated, log =>
    let targets := env.supported.filter fun c => decide (c ≠ base)
    if targets.isEmpty then refreshLoop env rest updated log
    else
      let log1 := { log with batchCalls := log.batchCalls ++ [base] }
      match fetchBatchRates env base targets with
      | .error e => (.error e, log1)
      | .ok rates =>
        let snaps := rates.map fun r =>
          ({ fromCurrency := base, toCurrency := r.1, rate := r.2,
             provider := env.provider, capturedAt := env.nowMs,
             stale := some false } : ExchangeRateSnapshot)
        refreshLoop env rest (updated + targets.length)
          { log1 with persistedWrites := log1.persistedWrites ++ snaps }

/-- The skip guard of refreshAllRates (src/utils/rates-store.ts line
213): !options.force && lastRefreshEpoch && nowMs < nextAllowed, where
lastRefreshEpoch is the recorded epoch defaulted to 0. -/
def skipCond (env : StoreEnv) (force : Bool) : Prop :=
  force = false ∧ env.lastRefreshEpoch.getD 0 ≠ 0 ∧
    env.nowMs < env.lastRefreshEpoch.getD 0 + env.freshMs

instance (env : StoreEnv) (force : Bool) : Decidable (skipCond env force) :=
  inferInstanceAs (Decidable (force = false ∧ env.lastRefreshEpoch.getD 0 ≠ 0 ∧
    env.nowMs < env.lastRefreshEpoch.getD 0 + env.freshMs))

/-- The result returned when a refresh is skipped as fresh
(src/utils/rates-store.ts lines 214-220). -/
def skipResult (env : StoreEnv) : RefreshRatesResult :=
  { refreshed := false, updatedPairs := 0,
    lastRefreshEpoch := env.lastRefreshEpoch.getD 0,
    nextAllowedRefreshEpoch := env.lastRefreshEpoch.getD 0 + env.freshMs,
    skippedReason := some "fresh" }

/-- refreshAllRates (src/utils/rates-store.ts lines 203-257). -/
def refreshAllRates (env : StoreEnv) (force : Bool) : RefreshOutcome :=
  if skipCond env force then
    { result := .ok (skipResult env), log := {} }
  else
    match refreshLoop env env.supported 0 {} with
    | (.error e, log) => { result := .error e, log := log }
    | (.ok updated, log) =>
      { result := .ok { refreshed := true
                        updatedPairs := updated
                        lastRefreshEpoch := env.nowMs
                        nextAllowedRefreshEpoch := env.nowMs + env.freshMs
                        skippedReason := none }
        log := { log with metaWrites := log.metaWrites ++ [(env.nowMs, force)] } }

/-- The batched call for a base currency fails: its target list is
non-empty (so a call is attempted) and the fetch errors, by a non-ok
response or a missing target rate. -/
def BatchFails (env : StoreEnv) (b : CurrencyCode) : Prop :=
  (env.supported.filter fun c => decide (c ≠ b)) ≠ [] ∧
    ∃ e, fetchBatchRates env b (env.supported.filter fun c => decide (c ≠ b)) = .error e

/-! Recurring rule engine (src/utils/recurrence.ts). Calendar dates are
modelled as (year, 0-based month index, 1-based day) triples in UTC,
mirroring getUTCFullYear / getUTCMonth / getUTCDate; a yyyy-MM-dd string
corresponds to exactly one normalized triple, and comparing epoch
timestamps of UTC midnights coincides with lexicographic comparison of
normalized triples. -/

/-- A UTC calendar date: year, month index 0-11, day of month 1-based. -/
structure UtcDate where
  year : ℤ
  month : ℤ
  day : ℤ
deriving DecidableEq, Repr

/-- Leap year in the proleptic Gregorian calendar used by JS Date. -/
def isLeapYear (y : ℤ) : Bool :=
  (y % 4 == 0 && y % 100 != 0) || y % 400 == 0

/-- daysInMonth (src/utils/recurrence.ts line 13): the number of days of
the month with 0-based index m of year y. -/
def daysInMonth (y m : ℤ) : ℤ :=
  if m = 1 then (if isLeapYear y then 29 else 28)
  else if m = 3 ∨ m = 5 ∨ m = 8 ∨ m = 10 then 30
  else 31

/-- A date triple that denotes an actual calendar date (what every JS
Date normalizes to). -/
def UtcDate.Normalized (d : UtcDate) : Prop :=
  0 ≤ d.month ∧ d.month < 12 ∧ 1 ≤ d.day ∧ d.day ≤ daysInMonth d.year d.month

instance (d : UtcDate) : Decidable d.Normalized :=
  inferInstanceAs (Decidable (0 ≤ d.month ∧ d.month < 12 ∧ 1 ≤ d.day ∧
    d.day ≤ daysInMonth d.year d.month))

/-- compareDates(a, b) < 0 (src/utils/recurrence.ts line 47): the UTC
midnight of a lies strictly before that of b; on normalized triples this
is the lexicographic order. -/
def UtcDate.Before (a b : UtcDate) : Prop :=
  a.year < b.year ∨ (a.year = b.year ∧
    (a.month < b.month ∨ (a.month = b.month ∧ a.day < b.day)))

instance (a b : UtcDate) : Decidable (a.Before b) :=
  inferInstanceAs (Decidable (a.year < b.year ∨ (a.year = b.year ∧
    (a.month < b.month ∨ (a.month = b.month ∧ a.day < b.day)))))

/-- clampDay (src/utils/recurrence.ts line 16). -/
def clampDay (y m day : ℤ) : ℤ := min day (daysInMonth y m)

/-- alignMonthlyDay (src/utils/recurrence.ts lines 19-25): move the base
date within its month to dayOfMonth (default: the base's own day),
clamped to the month's length. -/
def alignMonthlyDay (base : UtcDate) (dayOfMonth : Option ℤ) : UtcDate :=
  let day := dayOfMonth.getD base.day
  { year := base.year, month := base.month, day := clampDay base.year base.month day }

/-- The successor calendar day. -/
def nextDayUtc (d : UtcDate) : UtcDate :=
  if d.day < daysInMonth d.year d.month then
    { year := d.year, month := d.month, day := d.day + 1 }
  else if d.month < 11 then
    { year := d.year, month := d.month + 1, day := 1 }
  else
    { year := d.year + 1, month := 0, day := 1 }

/-- addDaysUtc (src/utils/recurrence.ts lines 27-31) for the
non-negative day counts used by the engine (multiples of 7):
setUTCDate(getUTCDate() + n) equals n successive day increments. -/
def addDaysUtc (d : UtcDate) (n : ℕ) : UtcDate := nextDayUtc^[n] d

/-- addMonthsUtc (src/utils/recurrence.ts lines 33-42): JS truncating
remainder normalized by ((t % 12) + 12) % 12 is tmod, Math.floor
division is fdiv; the day is clamped into the target month. -/
def addMonthsUtc (base : UtcDate) (months : ℤ) : UtcDate :=
  let targetMonth := base.month + months
  let nextYear := base.year + targetMonth.fdiv 12
  let nextMonth := (targetMonth.tmod 12 + 12).tmod 12
  { year := nextYear, month := nextMonth, day := clampDay nextYear nextMonth base.day }

/-- RecurringFrequency (src/types/budget.ts). -/
inductive RecurringFrequency where
  | weekly | biweekly | monthly
deriving DecidableEq, Repr

/-- RecurringRule (src/types/budget.ts); startDate and endDate are
modelled as their date triples. -/
structure RecurringRule where
  frequency : RecurringFrequency
  interval : Option ℤ := none
  startDate : UtcDate
  endDate : Option UtcDate := none
  dayOfMonth : Option ℤ := none
deriving DecidableEq, Repr

/-- getFrequencyDays (src/utils/recurrence.ts line 50). -/
def getFrequencyDays (frequency : RecurringFrequency) : ℤ :=
  if frequency = .biweekly then 14 else 7

/-- getInterval (src/utils/recurrence.ts line 53): a present positive
interval, otherwise 1. -/
def getInterval (rule : RecurringRule) : ℤ :=
  match rule.interval with
  | some i => if 0 < i then i else 1
  | none => 1

/-- buildInitialNextOccurrence (src/utils/recurrence.ts lines 88-94). -/
def buildInitialNextOccurrence (rule : RecurringRule) : UtcDate :=
  match rule.frequency with
  | .monthly => alignMonthlyDay rule.startDate rule.dayOfMonth
  | _ => rule.startDate

/-- getNextOccurrence (src/utils/recurrence.ts lines 96-111). -/
def getNextOccurrence (rule : RecurringRule) (fromDate : UtcDate) : UtcDate :=
  match rule.frequency with
  | .weekly => addDaysUtc fromDate (getFrequencyDays .weekly * getInterval rule).toNat
  | .biweekly => addDaysUtc fromDate (getFrequencyDays .biweekly * getInterval rule).toNat
  | .monthly => alignMonthlyDay (addMonthsUtc fromDate (getInterval rule)) rule.dayOfMonth

/-- The occurrence sequence of a rule: k applications of
getNextOccurrence starting at the initial occurrence. -/
def occSeq (rule : RecurringRule) (k : ℕ) : UtcDate :=
  (getNextOccurrence rule)^[k] (buildInitialNextOccurrence rule)

/-- The while-loop of computeNextOccurrence (src/utils/recurrence.ts
lines 120-122), written with explicit fuel; none signals exhausted fuel
while the loop guard is still true. -/
def computeNextOccurrenceAux (rule : RecurringRule) (target : UtcDate) :
    ℕ → UtcDate → Option UtcDate
  | 0, pointer => if pointer.Before target then none else some pointer
  | fuel + 1, pointer =>
    if pointer.Before target then
      computeNextOccurrenceAux rule target fuel (getNextOccurrence rule pointer)
    else some pointer

/-- The dayOfMonth constraint enforced by validateRecurringRule
(src/utils/recurrence.ts lines 80-85). -/
def DayOfMonthOK : Option ℤ → Prop
  | some d => 1 ≤ d ∧ d ≤ 31
  | none => True

instance : (o : Option ℤ) → Decidable (DayOfMonthOK o)
  | some d => inferInstanceAs (Decidable (1 ≤ d ∧ d ≤ 31))
  | none => inferInstanceAs (Decidable True)

/-- A rule that passes validateRecurringRule: a real start date and an
in-range dayOfMonth when one is set. -/
def ValidRule (rule : RecurringRule) : Prop :=
  rule.startDate.Normalized ∧ DayOfMonthOK rule.dayOfMonth

instance (rule : RecurringRule) : Decidable (ValidRule rule) :=
  inferInstanceAs (Decidable (rule.startDate.Normalized ∧ DayOfMonthOK rule.dayOfMonth))

/-! In-flight de-duplication (src/utils/currency.ts lines 51-76). The
pending map of one resolution context is modelled as a labelled
transition system. JS executes the synchronous body of getSnapshot
atomically, so one event covers lines 58-74 of a cache-missing call:
either it is served an already in-flight fetch, or it starts a new one
(identified by a fresh id) and is served that fetch. A settle event is
the promise of a fetch resolving or rejecting, whose finally handler
deletes the pending entry (lines 69-71). Cache hits (lines 59-62) never
touch the pending map and start no fetch, so they are not modelled. -/

/-- The pending map of one resolution context together with the fetches
started so far and the fetch each request was served. -/
structure PendingState where
  pending : CurrencyCode × CurrencyCode → Option ℕ
  nextId : ℕ
  started : List ((CurrencyCode × CurrencyCode) × ℕ)
  served : List ((CurrencyCode × CurrencyCode) × ℕ)

/-- Events of one resolution context: a cache-missing snapshot request
for a pair, or the settling of the in-flight fetch of a pair. -/
inductive SnapshotEvent where
  | request (pair : CurrencyCode × CurrencyCode)
  | settle (pair : CurrencyCode × CurrencyCode)
deriving DecidableEq, Repr

/-- One step of the pending-map discipline of getSnapshot. -/
def stepPending (s : PendingState) : SnapshotEvent → PendingState
  | .request k =>
    match s.pending k with
    | some i => { s with served := s.served ++ [(k, i)] }
    | none =>
      { pending := fun q => if q = k then some s.nextId else s.pending q
        nextId := s.nextId + 1
        started := s.started ++ [(k, s.nextId)]
        served := s.served ++ [(k, s.nextId)] }
  | .settle k =>
    { s with pending := fun q => if q = k then none else s.pending q }

/-- The initial state of a freshly created resolution context. -/
def initPendingState : PendingState :=
  { pending := fun _ => none, nextId := 0, started := [], served := [] }

/-- Run a context over a list of events. -/
def runPending (events : List SnapshotEvent) : PendingState :=
  events.foldl stepPending initPendingState

/-- Number of upstream fetches started for a pair. -/
def startedFor (s : PendingState) (k : CurrencyCode × CurrencyCode) : ℕ :=
  s.started.countP fun e => decide (e.1 = k)

/-- Number of settle events for a pair in an event list. -/
def settlesFor (events : List SnapshotEvent) (k : CurrencyCode × CurrencyCode) : ℕ :=
  events.countP fun e => decide (e = .settle k)

/-- 1 when a fetch for the pair is in flight, else 0. -/
def inflightFor (s : PendingState) (k : CurrencyCode × CurrencyCode) : ℕ :=
  if (s.pending k).isSome then 1 else 0

/-- A strictly monotone linearization of normalized dates (every year
spans at most 372 of these units, every month at most 31), used to bound
the catch-up loop of computeNextOccurrence. -/
def approxDays (d : UtcDate) : ℤ :=
  d.year * 372 + d.month * 31 + d.day

/-! Concrete environments used to witness the theorems below. -/

/-- An environment with empty cache, empty persistence and a failing
upstream provider. -/
def envIdentity : RateEnv :=
  { nowMs := 1000, cacheTtlMs := 300000, rateProvider := "currencyapi.com",
    cache := fun _ _ => none, persisted := fun _ _ => none,
    upstream := fun _ _ => .error "network down" }

/-- A persisted EUR to USD record whose freshness window has expired. -/
def staleRecord : PersistedRateResult :=
  { snapshot := { fromCurrency := .EUR, toCurrency := .USD, rate := 117 / 100
                  provider := "currencyapi.com", capturedAt := 500, stale := some false }
    freshUntilEpoch := some 800 }

/-- Environment with an expired persisted EUR to USD record and a
failing upstream provider. -/
def envStale : RateEnv :=
  { nowMs := 1000, cacheTtlMs := 300000, rateProvider := "currencyapi.com",
    cache := fun _ _ => none,
    persisted := fun f t =>
      if f = CurrencyCode.EUR ∧ t = CurrencyCode.USD then some staleRecord else none,
    upstream := fun _ _ => .error "network down" }

/-- The environment of a call following the stale fallback in envStale,
within the in-memory TTL. -/
def envStaleLater : RateEnv :=
  { envStale with
    cache := (convertAmount 2 CurrencyCode.EUR CurrencyCode.USD envStale).cache
    nowMs := 2000 }

/-- A persisted EUR to USD record still inside its freshness window at
time 1000. -/
def freshRecord : PersistedRateResult :=
  { snapshot := { fromCurrency := .EUR, toCurrency := .USD, rate := 117 / 100
                  provider := "currencyapi.com", capturedAt := 900, stale := some false }
    freshUntilEpoch := some 90000000 }

/-- Environment with a fresh persisted EUR to USD record. -/
def envFresh : RateEnv :=
  { nowMs := 1000, cacheTtlMs := 300000, rateProvider := "currencyapi.com",
    cache := fun _ _ => none,
    persisted := fun f t =>
      if f = CurrencyCode.EUR ∧ t = CurrencyCode.USD then some freshRecord else none,
    upstream := fun _ _ => .ok 2 }

/-- Store environment with two supported currencies, no previous refresh
and an upstream provider quoting every pair. -/
def envPair : StoreEnv :=
  { nowMs := 1000, freshMs := 86400000, provider := "currencyapi.com",
    supported := [.EUR, .USD], lastRefreshEpoch := none,
    batch := fun _ => .ok fun _ => some (9 / 5) }

/-- Store environment with a single supported currency. -/
def envSingle : StoreEnv :=
  { envPair with supported := [.EUR] }

/-- Store environment whose batch response for EUR is missing the USD
rate. -/
def envMissing : StoreEnv :=
  { envPair with batch := fun _ => .ok fun _ => none }

/-- Store environment whose last refresh was recent. -/
def envRecent : StoreEnv :=
  { envPair with lastRefreshEpoch := some 900 }

/-- A weekly rule starting 2026-01-01. -/
def weeklyRule : RecurringRule :=
  { frequency := .weekly, startDate := { year := 2026, month := 0, day := 1 } }

/-- A monthly rule on day 31 starting 2026-01-31. -/
def monthlyRule31 : RecurringRule :=
  { frequency := .monthly, startDate := { year := 2026, month := 0, day := 31 },
    dayOfMonth := some 31 }

/-- A monthly rule on day 31 starting 2028-01-31 (a leap year). -/
def monthlyRuleLeap : RecurringRule :=
  { frequency := .monthly, startDate := { year := 2028, month := 0, day := 31 },
    dayOfMonth := some 31 }

/-- Two concurrent cache-missing requests for the same pair. -/
def dedupEvents : List SnapshotEvent :=
  [.request (CurrencyCode.EUR, CurrencyCode.USD)]

/-! Theorems. -/

/-- toFixed(2) on a rational agrees with round-half-away-from-zero to
two decimal places. -/
theorem toFixed2_eq_round2 (x : ℚ) : toFixed2 x = round2 x := by
  unfold toFixed2 round2 roundHalfAwayFromZero
  rcases lt_or_le x 0 with h | h
  · have hneg : ¬ (0 : ℚ) ≤ x * 100 := by nlinarith
    rw [if_pos h, if_neg hneg]
    have hflip : x * 100 - 1 / 2 = -((-x) * 100 + 1 / 2) := by ring
    rw [hflip, Int.ceil_neg]
    push_cast
    ring
  · have hpos : (0 : ℚ) ≤ x * 100 := by nlinarith
    rw [if_neg (not_lt.mpr h), if_pos hpos]

/-- C1: for every amount x and every snapshot obtained for a pair,
convertAmount returns x multiplied by the snapshot's rate, rounded to 2
decimal places with round-half-away-from-zero applied only to the final
product. -/
theorem convertAmount_rounds_final_product (amount : ℚ) (f t : CurrencyCode)
    (env : RateEnv) :
    (convertAmount amount f t env).result =
      (getSnapshotOnce env f t).result.map fun s => (round2 (amount * s.rate), s) := by
  unfold convertAmount
  cases h : (getSnapshotOnce env f t).result with
  | ok s => simp [Except.map, h, toFixed2_eq_round2]
  | error e => simp [Except.map, h]

/-- C2: convert(x, a, a) returns x rounded to two decimals together
with a synthesized snapshot of rate exactly 1, performing no persistence
read, no persistence write and no upstream call, and leaving the
in-memory cache untouched. -/
theorem convert_same_currency (env : RateEnv) (x : ℚ) (a : CurrencyCode)
    (hcache : env.cache a a = none) :
    (convertAmount x a a env).result = .ok (round2 x, identitySnapshot env a a) ∧
    (identitySnapshot env a a).rate = 1 ∧
    (convertAmount x a a env).cache = env.cache ∧
    (convertAmount x a a env).log.persistedReads = [] ∧
    (convertAmount x a a env).log.upstreamCalls = [] ∧
    (convertAmount x a a env).log.persistedWrites = [] := by
  have hch : cacheHit env a a = none := by
    unfold cacheHit
    rw [hcache]
  refine ⟨?_, rfl, ?_, ?_, ?_, ?_⟩ <;>
    simp [convertAmount, getSnapshotOnce, hch, fetchRate, Except.map,
      toFixed2_eq_round2, identitySnapshot, mul_one]

/-- Witness for C2 at a concrete environment and amount. -/
theorem convert_same_currency_witness :
    (convertAmount (5 / 2) CurrencyCode.EUR CurrencyCode.EUR envIdentity).result =
      .ok (round2 (5 / 2), identitySnapshot envIdentity CurrencyCode.EUR CurrencyCode.EUR) ∧
    (identitySnapshot envIdentity CurrencyCode.EUR CurrencyCode.EUR).rate = 1 ∧
    (convertAmount (5 / 2) CurrencyCode.EUR CurrencyCode.EUR envIdentity).cache =
      envIdentity.cache ∧
    (convertAmount (5 / 2) CurrencyCode.EUR CurrencyCode.EUR envIdentity).log.persistedReads = [] ∧
    (convertAmount (5 / 2) CurrencyCode.EUR CurrencyCode.EUR envIdentity).log.upstreamCalls = [] ∧
    (convertAmount (5 / 2) CurrencyCode.EUR CurrencyCode.EUR envIdentity).log.persistedWrites = [] :=
  convert_same_currency envIdentity (5 / 2) CurrencyCode.EUR rfl

/-- C3: when the upstream fetch for a pair fails (the fetch being
reached means the memory cache missed and any persisted record is
outside its freshness window), convert returns the persisted record's
snapshot marked stale without raising when such a record exists, and
propagates the failure when none does. -/
theorem convert_upstream_failure (env : RateEnv) (x : ℚ) (f t : CurrencyCode)
    (e : String)
    (hne : f ≠ t)
    (hcache : cacheHit env f t = none)
    (hnotfresh : ∀ p ∈ env.persisted f t, isFreshRecord p env.nowMs = false)
    (hup : env.upstream f t = .error e) :
    (convertAmount x f t env).result =
      (match env.persisted f t with
       | some p =>
         .ok (toFixed2 (x * p.snapshot.rate), { p.snapshot with stale := some true })
       | none => .error e) := by
  cases hp : env.persisted f t with
  | some p =>
    have hnf : isFreshRecord p env.nowMs = false := hnotfresh p (Option.mem_def.mpr hp)
    simp [convertAmount, getSnapshotOnce, hcache, fetchRate, hne,
      fetchRateUncached, hp, hnf, fetchRateUpstream, hup, Except.map]
  | none =>
    simp [convertAmount, getSnapshotOnce, hcache, fetchRate, hne,
      fetchRateUncached, hp, fetchRateUpstream, hup, Except.map]

/-- Witness for C3: with an expired persisted record and a failing
provider, convert returns the record marked stale. -/
theorem convert_upstream_failure_witness :
    (convertAmount 2 CurrencyCode.EUR CurrencyCode.USD envStale).result =
      .ok (toFixed2 (2 * staleRecord.snapshot.rate),
        { staleRecord.snapshot with stale := some true }) :=
  convert_upstream_failure envStale 2 CurrencyCode.EUR CurrencyCode.USD
    "network down" (by decide) rfl
    (by
      intro p hp
      rw [Option.mem_def] at hp
      have hps : p = staleRecord := by
        have : some staleRecord = some p := hp
        exact (Option.some.injEq _ _ ▸ this).symm
      subst hps
      rfl)
    rfl

/-- C8: a persisted record whose freshness window is still open is
returned marked non-stale, promoted into the in-memory cache with the
in-memory TTL, and the upstream adapter is not invoked. -/
theorem convert_persisted_fresh (env : RateEnv) (f t : CurrencyCode)
    (p : PersistedRateResult) (u : ℕ)
    (hne : f ≠ t)
    (hcache : cacheHit env f t = none)
    (hp : env.persisted f t = some p)
    (hfu : p.freshUntilEpoch = some u)
    (hnow : env.nowMs < u)
    (hkf : p.snapshot.fromCurrency = f)
    (hkt : p.snapshot.toCurrency = t) :
    (getSnapshotOnce env f t).result = .ok { p.snapshot with stale := some false } ∧
    (getSnapshotOnce env f t).cache f t =
      some { snapshot := { p.snapshot with stale := some false }
             expiresAt := env.nowMs + env.cacheTtlMs } ∧
    (getSnapshotOnce env f t).log.upstreamCalls = [] := by
  have hfr : isFreshRecord p env.nowMs = true := by
    unfold isFreshRecord
    rw [hfu]
    simpa using hnow
  refine ⟨?_, ?_, ?_⟩ <;>
    simp [getSnapshotOnce, hcache, fetchRate, hne, fetchRateUncached, hp, hfr,
      rememberRate, hkf, hkt]

/-- Witness for C8 at a concrete environment with a fresh persisted
record. -/
theorem convert_persisted_fresh_witness :
    (getSnapshotOnce envFresh CurrencyCode.EUR CurrencyCode.USD).result =
      .ok { freshRecord.snapshot with stale := some false } ∧
    (getSnapshotOnce envFresh CurrencyCode.EUR CurrencyCode.USD).cache
        CurrencyCode.EUR CurrencyCode.USD =
      some { snapshot := { freshRecord.snapshot with stale := some false }
             expiresAt := envFresh.nowMs + envFresh.cacheTtlMs } ∧
    (getSnapshotOnce envFresh CurrencyCode.EUR CurrencyCode.USD).log.upstreamCalls = [] :=
  convert_persisted_fresh envFresh CurrencyCode.EUR CurrencyCode.USD freshRecord
    90000000 (by decide) rfl rfl rfl (by decide) rfl rfl

/-- C10: the stale fallback snapshot is written into the in-memory
cache with the normal in-memory TTL, and any later convert call for the
pair before that expiry is served from memory with no persistence read,
no persistence write and no upstream call. -/
theorem convert_stale_fallback_cached (env env₂ : RateEnv) (x y : ℚ)
    (f t : CurrencyCode) (p : PersistedRateResult) (e : String)
    (hne : f ≠ t)
    (hcache : cacheHit env f t = none)
    (hp : env.persisted f t = some p)
    (hnf : isFreshRecord p env.nowMs = false)
    (hup : env.upstream f t = .error e)
    (hkf : p.snapshot.fromCurrency = f)
    (hkt : p.snapshot.toCurrency = t)
    (hc2 : env₂.cache = (convertAmount x f t env).cache)
    (hn2 : env₂.nowMs < env.nowMs + env.cacheTtlMs) :
    (convertAmount x f t env).cache f t =
      some { snapshot := { p.snapshot with stale := some true }
             expiresAt := env.nowMs + env.cacheTtlMs } ∧
    (convertAmount y f t env₂).result =
      .ok (toFixed2 (y * p.snapshot.rate), { p.snapshot with stale := some true }) ∧
    (convertAmount y f t env₂).log = {} := by
  have hcc : (convertAmount x f t env).cache f t =
      some { snapshot := { p.snapshot with stale := some true }
             expiresAt := env.nowMs + env.cacheTtlMs } := by
    simp [convertAmount, getSnapshotOnce, hcache, fetchRate, hne,
      fetchRateUncached, hp, hnf, fetchRateUpstream, hup, rememberRate, hkf, hkt]
  have hch2 : cacheHit env₂ f t = some { p.snapshot with stale := some true } := by
    unfold cacheHit
    rw [hc2, hcc]
    simp [hn2]
  refine ⟨hcc, ?_, ?_⟩ <;>
    simp [convertAmount, getSnapshotOnce, hch2, Except.map]

/-- Witness for C10: the fallback written by a failing conversion at
time 1000 serves a second conversion at time 2000 from memory. -/
theorem convert_stale_fallback_cached_witness :
    (convertAmount 2 CurrencyCode.EUR CurrencyCode.USD envStale).cache
        CurrencyCode.EUR CurrencyCode.USD =
      some { snapshot := { staleRecord.snapshot with stale := some true }
             expiresAt := envStale.nowMs + envStale.cacheTtlMs } ∧
    (convertAmount 3 CurrencyCode.EUR CurrencyCode.USD envStaleLater).result =
      .ok (toFixed2 (3 * staleRecord.snapshot.rate),
        { staleRecord.snapshot with stale := some true }) ∧
    (convertAmount 3 CurrencyCode.EUR CurrencyCode.USD envStaleLater).log = {} :=
  convert_stale_fallback_cached envStale envStaleLater 2 3 CurrencyCode.EUR
    CurrencyCode.USD staleRecord "network down" (by decide) rfl rfl rfl rfl rfl rfl
    rfl (by decide)

/-- One step of the pending-map discipline starts a fetch for a pair
only when none is in flight, and only a settle event can clear the
in-flight marker. -/
theorem stepPending_ineq (s : PendingState) (e : SnapshotEvent)
    (k : CurrencyCode × CurrencyCode) :
    startedFor (stepPending s e) k + inflightFor s k ≤
      startedFor s k + inflightFor (stepPending s e) k +
        (if e = .settle k then 1 else 0) := by
  cases e with
  | request q =>
    cases hp : s.pending q with
    | some i =>
      simp [stepPending, hp, startedFor, inflightFor]
    | none =>
      by_cases hqk : q = k
      · subst hqk
        simp [stepPending, hp, startedFor, inflightFor, List.countP_append]
      · simp [stepPending, hp, startedFor, inflightFor, List.countP_append,
          List.countP_cons, hqk, Ne.symm hqk]
  | settle q =>
    by_cases hqk : q = k
    · subst hqk
      simp only [stepPending, startedFor, inflightFor]
      simp
      split <;> omega
    · simp [stepPending, startedFor, inflightFor, hqk, Ne.symm hqk]

/-- Over any event sequence the number of fetches started for a pair
never exceeds the number of settled fetches for it plus the one that
may still be in flight. -/
theorem startedFor_le_settles_aux (k : CurrencyCode × CurrencyCode) :
    ∀ (events : List SnapshotEvent) (s : PendingState),
      startedFor (events.foldl stepPending s) k + inflightFor s k ≤
        startedFor s k + inflightFor (events.foldl stepPending s) k +
          settlesFor events k := by
  intro events
  induction events with
  | nil =>
    intro s
    simp [settlesFor]
  | cons e evs ih =>
    intro s
    have h1 := ih (stepPending s e)
    have h2 := stepPending_ineq s e k
    have h3 : settlesFor (e :: evs) k =
        settlesFor evs k + (if e = .settle k then 1 else 0) := by
      simp [settlesFor, List.countP_cons]
    simp only [List.foldl_cons]
    omega

/-- C9: within one resolution context a request for a pair arriving
while a fetch for that pair is in flight is served exactly that fetch
and starts no new one, and over any interleaving the fetches started for
a pair never outnumber the settled ones by more than the single
outstanding fetch, so duplicate in-flight fetches for a pair cannot
occur. -/
theorem snapshot_requests_collapse (events : List SnapshotEvent)
    (k : CurrencyCode × CurrencyCode) (i : ℕ)
    (hin : (runPending events).pending k = some i) :
    stepPending (runPending events) (.request k) =
      { runPending events with served := (runPending events).served ++ [(k, i)] } ∧
    startedFor (runPending events) k ≤ settlesFor events k + 1 := by
  constructor
  · simp [stepPending, hin]
  · have h := startedFor_le_settles_aux k events initPendingState
    have h0 : startedFor initPendingState k = 0 := rfl
    have h1 : inflightFor initPendingState k = 0 := rfl
    have h2 : inflightFor (runPending events) k ≤ 1 := by
      unfold inflightFor
      split <;> omega
    unfold runPending at h2 ⊢
    omega

/-- Witness for C9: a second request while the first's fetch is in
flight is served fetch 0 and starts nothing new. -/
theorem snapshot_requests_collapse_witness :
    stepPending (runPending dedupEvents)
        (.request (CurrencyCode.EUR, CurrencyCode.USD)) =
      { runPending dedupEvents with
        served := (runPending dedupEvents).served ++
          [((CurrencyCode.EUR, CurrencyCode.USD), 0)] } ∧
    startedFor (runPending dedupEvents) (CurrencyCode.EUR, CurrencyCode.USD) ≤
      settlesFor dedupEvents (CurrencyCode.EUR, CurrencyCode.USD) + 1 :=
  snapshot_requests_collapse dedupEvents (CurrencyCode.EUR, CurrencyCode.USD) 0 rfl

/-- Filtering one element out of a duplicate-free list drops exactly
that element. -/
theorem filter_ne_length (l : List CurrencyCode) (b : CurrencyCode)
    (hnd : l.Nodup) (hb : b ∈ l) :
    (l.filter fun c => decide (c ≠ b)).length = l.length - 1 := by
  induction l with
  | nil => cases hb
  | cons a l ih =>
    rcases List.nodup_cons.mp hnd with ⟨hal, hl⟩
    by_cases hab : a = b
    · subst hab
      have hfeq : (l.filter fun c => decide (c ≠ a)) = l :=
        List.filter_eq_self.mpr (by
          intro c hc
          exact decide_eq_true fun hca => hal (hca ▸ hc))
      simp only [List.filter_cons, decide_not, decide_eq_true_eq]
      rw [if_neg (by simp)]
      rw [show (l.filter fun c => !decide (c = a)) =
          (l.filter fun c => decide (c ≠ a)) from by simp [decide_not], hfeq]
      simp
    · have hbl : b ∈ l := by
        rcases List.mem_cons.mp hb with h | h
        · exact absurd h fun hba => hab hba.symm
        · exact h
      have hlen : 1 ≤ l.length := List.length_pos.mpr (List.ne_nil_of_mem hbl)
      have hrec := ih hl hbl
      simp only [List.filter_cons, decide_not] at hrec ⊢
      rw [if_pos (by simp [hab])]
      simp only [List.length_cons]
      omega

/-- When every target has a quoted value, collectRates succeeds with one
entry per target. -/
theorem collectRates_ok (data : CurrencyCode → Option ℚ) :
    ∀ targets : List CurrencyCode, (∀ t ∈ targets, (data t).isSome = true) →
      ∃ rs, collectRates data targets = .ok rs ∧ rs.length = targets.length := by
  intro targets
  induction targets with
  | nil => exact fun _ => ⟨[], rfl, rfl⟩
  | cons t rest ih =>
    intro h
    have ht : (data t).isSome = true := h t (List.mem_cons_self t rest)
    rcases Option.isSome_iff_exists.mp ht with ⟨v, hv⟩
    rcases ih (fun c hc => h c (List.mem_cons_of_mem t hc)) with ⟨rs, hrs, hlen⟩
    refine ⟨(t, v) :: rs, ?_, by simp [hlen]⟩
    simp [collectRates, hv, hrs, Except.map]

/-- The refresh loop never writes the meta record. -/
theorem refreshLoop_metaWrites (env : StoreEnv) :
    ∀ (l : List CurrencyCode) (u : ℕ) (log : RefreshLog),
      (refreshLoop env l u log).2.metaWrites = log.metaWrites := by
  intro l
  induction l with
  | nil => intro u log; rfl
  | cons b rest ih =>
    intro u log
    simp only [refreshLoop]
    by_cases he : ((env.supported.filter fun c => decide (c ≠ b)).isEmpty) = true
    · rw [if_pos he]
      exact ih u log
    · rw [if_neg he]
      cases hf : fetchBatchRates env b (env.supported.filter fun c => decide (c ≠ b)) with
      | error e => rfl
      | ok rs => exact ih _ _

/-- When every batch succeeds with all targets quoted, the refresh loop
issues one batched call per base and persists one snapshot per target of
each base. -/
theorem refreshLoop_ok (env : StoreEnv)
    (hnd : env.supported.Nodup)
    (hbatch : ∀ b ∈ env.supported, ∃ data, env.batch b = .ok data ∧
      ∀ t ∈ env.supported, t ≠ b → (data t).isSome = true)
    (hN : 2 ≤ env.supported.length) :
    ∀ l : List CurrencyCode, (∀ b ∈ l, b ∈ env.supported) →
      ∀ (u : ℕ) (log : RefreshLog),
      ∃ writes : List ExchangeRateSnapshot,
        refreshLoop env l u log =
          (.ok (u + l.length * (env.supported.length - 1)),
           { batchCalls := log.batchCalls ++ l
             persistedWrites := log.persistedWrites ++ writes
             metaWrites := log.metaWrites }) ∧
        writes.length = l.length * (env.supported.length - 1) := by
  intro l
  induction l with
  | nil =>
    intro hmem u log
    exact ⟨[], by simp [refreshLoop], by simp⟩
  | cons b rest ih =>
    intro hmem u log
    have hbsup : b ∈ env.supported := hmem b (List.mem_cons_self b rest)
    have hlen : (env.supported.filter fun c => decide (c ≠ b)).length =
        env.supported.length - 1 := filter_ne_length env.supported b hnd hbsup
    have hne : ¬ ((env.supported.filter fun c => decide (c ≠ b)).isEmpty) = true := by
      rw [List.isEmpty_iff]
      intro hnil
      rw [hnil] at hlen
      simp at hlen
      omega
    rcases hbatch b hbsup with ⟨data, hdata, hall⟩
    have hforall : ∀ t ∈ env.supported.filter fun c => decide (c ≠ b),
        (data t).isSome = true := by
      intro t htf
      rcases List.mem_filter.mp htf with ⟨hts, htb⟩
      exact hall t hts (of_decide_eq_true htb)
    rcases collectRates_ok data _ hforall with ⟨rs, hrs, hrslen⟩
    have hfetch : fetchBatchRates env b
        (env.supported.filter fun c => decide (c ≠ b)) = .ok rs := by
      unfold fetchBatchRates
      rw [hdata]
      exact hrs
    have hstep : refreshLoop env (b :: rest) u log =
        refreshLoop env rest (u + (env.supported.filter fun c => decide (c ≠ b)).length)
          { batchCalls := log.batchCalls ++ [b]
            persistedWrites := log.persistedWrites ++ rs.map (fun r =>
              ({ fromCurrency := b, toCurrency := r.1, rate := r.2,
                 provider := env.provider, capturedAt := env.nowMs,
                 stale := some false } : ExchangeRateSnapshot))
            metaWrites := log.metaWrites } := by
      simp only [refreshLoop]
      rw [if_neg hne, hfetch]
    rcases ih (fun c hc => hmem c (List.mem_cons_of_mem b hc))
      (u + (env.supported.filter fun c => decide (c ≠ b)).length)
      { batchCalls := log.batchCalls ++ [b]
        persistedWrites := log.persistedWrites ++ rs.map (fun r =>
          ({ fromCurrency := b, toCurrency := r.1, rate := r.2,
             provider := env.provider, capturedAt := env.nowMs,
             stale := some false } : ExchangeRateSnapshot))
        metaWrites := log.metaWrites } with ⟨writes, hloop, hwlen⟩
    refine ⟨rs.map (fun r =>
        ({ fromCurrency := b, toCurrency := r.1, rate := r.2,
           provider := env.provider, capturedAt := env.nowMs,
           stale := some false } : ExchangeRateSnapshot)) ++ writes, ?_, ?_⟩
    · rw [hstep, hloop]
      have hBL : (b :: rest).length = rest.length + 1 := rfl
      have harith : u + (env.supported.filter fun c => decide (c ≠ b)).length +
          rest.length * (env.supported.length - 1) =
          u + (b :: rest).length * (env.supported.length - 1) := by
        rw [hlen, hBL]
        ring
      rw [harith]
      simp [List.append_assoc]
    · have hmap : (rs.map (fun r =>
          ({ fromCurrency := b, toCurrency := r.1, rate := r.2,
             provider := env.provider, capturedAt := env.nowMs,
             stale := some false } : ExchangeRateSnapshot))).length = rs.length :=
        List.length_map _ _
      have hBL : (b :: rest).length = rest.length + 1 := rfl
      rw [List.length_append, hmap, hrslen, hlen, hwlen, hBL]
      ring

/-- A failing batch for any base aborts the refresh loop with an
error. -/
theorem refreshLoop_err (env : StoreEnv) :
    ∀ (l : List CurrencyCode) (u : ℕ) (log : RefreshLog) (b : CurrencyCode),
      b ∈ l → BatchFails env b →
      ∃ e, (refreshLoop env l u log).1 = .error e := by
  intro l
  induction l with
  | nil =>
    intro u log b hb _
    cases hb
  | cons a rest ih =>
    intro u log b hb hfail
    simp only [refreshLoop]
    by_cases he : ((env.supported.filter fun c => decide (c ≠ a)).isEmpty) = true
    · rw [if_pos he]
      rcases List.mem_cons.mp hb with hba | hba
      · subst hba
        exact absurd (List.isEmpty_iff.mp he) hfail.1
      · exact ih u log b hba hfail
    · rw [if_neg he]
      cases hf : fetchBatchRates env a (env.supported.filter fun c => decide (c ≠ a)) with
      | error e => exact ⟨e, rfl⟩
      | ok rs =>
        rcases List.mem_cons.mp hb with hba | hba
        · subst hba
          rcases hfail.2 with ⟨e, he2⟩
          rw [hf] at he2
          cases he2
        · exact ih _ _ b hba hfail

/-- C4 (amended): when a refresh is not skipped and at least two
currencies are supported, with all batches succeeding it issues exactly
one batched call per base currency (N calls for N distinct supported
currencies), persists all N*(N-1) pairs, returns updatedPairs = N*(N-1)
and records the current time as last refresh (with the manual flag when
forced); and whenever any base's batch fails the whole refresh aborts
with that error and the last-refresh record is not written. With a
single supported currency no batched call is issued. -/
theorem refreshAllRates_batches (env : StoreEnv) (force : Bool)
    (hnd : env.supported.Nodup)
    (hN : 2 ≤ env.supported.length)
    (hskip : ¬ skipCond env force) :
    ((∀ b ∈ env.supported, ∃ data, env.batch b = .ok data ∧
        ∀ t ∈ env.supported, t ≠ b → (data t).isSome = true) →
      (refreshAllRates env force).log.batchCalls = env.supported ∧
      (refreshAllRates env force).log.persistedWrites.length =
        env.supported.length * (env.supported.length - 1) ∧
      (refreshAllRates env force).result = .ok
        { refreshed := true
          updatedPairs := env.supported.length * (env.supported.length - 1)
          lastRefreshEpoch := env.nowMs
          nextAllowedRefreshEpoch := env.nowMs + env.freshMs
          skippedReason := none } ∧
      (refreshAllRates env force).log.metaWrites = [(env.nowMs, force)]) ∧
    ((∃ b ∈ env.supported, BatchFails env b) →
      (∃ e, (refreshAllRates env force).result = .error e) ∧
      (refreshAllRates env force).log.metaWrites = []) := by
  constructor
  · intro hbatch
    rcases refreshLoop_ok env hnd hbatch hN env.supported (fun b hb => hb) 0 {}
      with ⟨writes, hloop, hwlen⟩
    have hout : refreshAllRates env force =
        { result := .ok
            { refreshed := true
              updatedPairs := 0 + env.supported.length * (env.supported.length - 1)
              lastRefreshEpoch := env.nowMs
              nextAllowedRefreshEpoch := env.nowMs + env.freshMs
              skippedReason := none }
          log := { batchCalls := [] ++ env.supported
                   persistedWrites := [] ++ writes
                   metaWrites := [] ++ [(env.nowMs, force)] } } := by
      unfold refreshAllRates
      rw [if_neg hskip, hloop]
    rw [hout]
    refine ⟨by simp, by simp [hwlen], by simp, by simp⟩
  · rintro ⟨b, hb, hfail⟩
    rcases refreshLoop_err env env.supported 0 {} b hb hfail with ⟨e, herr⟩
    have hmeta := refreshLoop_metaWrites env env.supported 0 {}
    have hout : refreshAllRates env force =
        { result := .error e, log := (refreshLoop env env.supported 0 {}).2 } := by
      unfold refreshAllRates
      rw [if_neg hskip]
      cases hpair : refreshLoop env env.supported 0 {} with
      | mk fst snd =>
        rw [hpair] at herr
        simp at herr
        rw [herr]
    rw [hout]
    exact ⟨⟨e, rfl⟩, hmeta⟩

/-- Counterexample to C4 as stated: with exactly one supported currency
a non-skipped forced refresh issues zero batched upstream calls, not
one per supported currency. -/
theorem refreshAllRates_single_base_no_call :
    envSingle.supported.length = 1 ∧
    (refreshAllRates envSingle true).result = .ok
      { refreshed := true
        updatedPairs := 0
        lastRefreshEpoch := 1000
        nextAllowedRefreshEpoch := 1000 + 86400000
        skippedReason := none } ∧
    (refreshAllRates envSingle true).log.batchCalls = [] ∧
    (refreshAllRates envSingle true).log.batchCalls.length ≠
      envSingle.supported.length := by
  refine ⟨rfl, rfl, rfl, by decide⟩

/-- Witness for C4 at two supported currencies with quoting batches. -/
theorem refreshAllRates_batches_witness :
    (refreshAllRates envPair true).log.batchCalls = envPair.supported ∧
    (refreshAllRates envPair true).log.persistedWrites.length =
      envPair.supported.length * (envPair.supported.length - 1) ∧
    (refreshAllRates envPair true).result = .ok
      { refreshed := true
        updatedPairs := envPair.supported.length * (envPair.supported.length - 1)
        lastRefreshEpoch := envPair.nowMs
        nextAllowedRefreshEpoch := envPair.nowMs + envPair.freshMs
        skippedReason := none } ∧
    (refreshAllRates envPair true).log.metaWrites = [(envPair.nowMs, true)] :=
  (refreshAllRates_batches envPair true (by decide) (by decide) (by decide)).1
    (by
      intro b hb
      exact ⟨fun _ => some (9 / 5), rfl, fun t ht hne => rfl⟩)

/-- C5: refreshAllRates skips, returning refreshed false, zero updated
pairs, skippedReason fresh and issuing no upstream call, exactly when it
is not forced, a nonzero last-refresh epoch is recorded, and the current
time is before that epoch plus the freshness window; when forced it
never skips. -/
theorem refreshAllRates_skip_iff (env : StoreEnv) (force : Bool) :
    ((∃ r, (refreshAllRates env force).result = .ok r ∧ r.refreshed = false) ↔
      skipCond env force) ∧
    (skipCond env force →
      refreshAllRates env force = { result := .ok (skipResult env), log := {} }) ∧
    (force = true →
      ¬ ∃ r, (refreshAllRates env force).result = .ok r ∧ r.refreshed = false) := by
  by_cases hs : skipCond env force
  · have hout : refreshAllRates env force =
        { result := .ok (skipResult env), log := {} } := by
      unfold refreshAllRates
      rw [if_pos hs]
    refine ⟨⟨fun _ => hs, fun _ => ⟨skipResult env, by rw [hout], rfl⟩⟩,
      fun _ => hout, ?_⟩
    intro hft
    rw [hft] at hs
    exact absurd hs.1 (by decide)
  · have hnone : ¬ ∃ r, (refreshAllRates env force).result = .ok r ∧
        r.refreshed = false := by
      rintro ⟨r, hr, hrf⟩
      unfold refreshAllRates at hr
      rw [if_neg hs] at hr
      cases hpair : refreshLoop env env.supported 0 {} with
      | mk fst snd =>
        rw [hpair] at hr
        cases fst with
        | error e => cases hr
        | ok u =>
          simp at hr
          rw [← hr] at hrf
          cases hrf
    exact ⟨⟨fun h => absurd h hnone, fun h => absurd h hs⟩,
      fun h => absurd h hs, fun _ => hnone⟩

/-- Witness for C5: a recent unforced refresh is skipped with the fresh
skip result and no upstream calls. -/
theorem refreshAllRates_skip_iff_witness :
    refreshAllRates envRecent false =
      { result := .ok (skipResult envRecent), log := {} } :=
  (refreshAllRates_skip_iff envRecent false).2.1 (by decide)

/-- Every month has between 28 and 31 days. -/
theorem daysInMonth_bounds (y m : ℤ) :
    28 ≤ daysInMonth y m ∧ daysInMonth y m ≤ 31 := by
  unfold daysInMonth
  split
  · split <;> omega
  · split <;> omega

/-- The calendar order on dates is transitive. -/
theorem before_trans {a b c : UtcDate} (h1 : a.Before b) (h2 : b.Before c) :
    a.Before c := by
  unfold UtcDate.Before at *
  omega

/-- The successor day of a real date is a real date. -/
theorem nextDayUtc_normalized {d : UtcDate} (h : d.Normalized) :
    (nextDayUtc d).Normalized := by
  obtain ⟨h1, h2, h3, h4⟩ := h
  have hb1 := daysInMonth_bounds d.year (d.month + 1)
  have hb2 := daysInMonth_bounds (d.year + 1) 0
  unfold nextDayUtc UtcDate.Normalized
  split
  · dsimp only
    omega
  · split <;> (dsimp only; omega)

/-- The successor day lies strictly after its date. -/
theorem nextDayUtc_before {d : UtcDate} (h : d.Normalized) :
    d.Before (nextDayUtc d) := by
  obtain ⟨h1, h2, h3, h4⟩ := h
  unfold nextDayUtc UtcDate.Before
  split
  · dsimp only
    omega
  · split <;> (dsimp only; omega)

/-- Adding days preserves being a real date. -/
theorem addDaysUtc_normalized (n : ℕ) {d : UtcDate} (h : d.Normalized) :
    (addDaysUtc d n).Normalized := by
  induction n with
  | zero => exact h
  | succ n ih =>
    rw [addDaysUtc, Function.iterate_succ_apply']
    exact nextDayUtc_normalized ih

/-- Adding at least one day moves a date strictly forward. -/
theorem addDaysUtc_succ_before (n : ℕ) {d : UtcDate} (h : d.Normalized) :
    d.Before (addDaysUtc d (n + 1)) := by
  induction n with
  | zero =>
    rw [addDaysUtc, Function.iterate_succ_apply']
    exact nextDayUtc_before h
  | succ n ih =>
    rw [addDaysUtc, Function.iterate_succ_apply']
    exact before_trans ih (nextDayUtc_before (addDaysUtc_normalized (n + 1) h))

/-- addMonthsUtc advances the linearized month count by exactly the
requested number of months, keeps the month index in range, and clamps
the day into the target month. -/
theorem addMonthsUtc_spec (base : UtcDate) (months : ℤ)
    (hm : 0 ≤ base.month) (hmonths : 1 ≤ months) :
    (addMonthsUtc base months).year * 12 + (addMonthsUtc base months).month =
      base.year * 12 + base.month + months ∧
    0 ≤ (addMonthsUtc base months).month ∧ (addMonthsUtc base months).month < 12 ∧
    (addMonthsUtc base months).day =
      min base.day
        (daysInMonth (addMonthsUtc base months).year (addMonthsUtc base months).month) := by
  have ht : 0 ≤ base.month + months := by omega
  have h0 : (base.month + months).fdiv 12 = (base.month + months) / 12 :=
    Int.fdiv_eq_ediv _ (by norm_num)
  have h1 : (base.month + months).tmod 12 = (base.month + months) % 12 :=
    Int.tmod_eq_emod ht (by norm_num)
  have hx : 0 ≤ (base.month + months) % 12 := Int.emod_nonneg _ (by norm_num)
  have h2 : ((base.month + months) % 12 + 12).tmod 12 =
      ((base.month + months) % 12 + 12) % 12 :=
    Int.tmod_eq_emod (by omega) (by norm_num)
  unfold addMonthsUtc clampDay
  dsimp only
  rw [h0, h1, h2]
  refine ⟨by omega, by omega, by omega, rfl⟩

/-- addMonthsUtc maps real dates to real dates. -/
theorem addMonthsUtc_normalized {base : UtcDate} {months : ℤ}
    (hb : base.Normalized) (hmonths : 1 ≤ months) :
    (addMonthsUtc base months).Normalized := by
  obtain ⟨hid, hm0, hm1, hday⟩ := addMonthsUtc_spec base months hb.1 hmonths
  have hbd := daysInMonth_bounds (addMonthsUtc base months).year
    (addMonthsUtc base months).month
  refine ⟨hm0, hm1, ?_, ?_⟩
  · rw [hday]
    exact le_min hb.2.2.1 (by omega)
  · rw [hday]
    exact min_le_right _ _

/-- Adding at least one month moves a date strictly forward. -/
theorem addMonthsUtc_before {base : UtcDate} {months : ℤ}
    (hb : base.Normalized) (hmonths : 1 ≤ months) :
    base.Before (addMonthsUtc base months) := by
  obtain ⟨hid, hm0, hm1, _⟩ := addMonthsUtc_spec base months hb.1 hmonths
  obtain ⟨hb1, hb2, _, _⟩ := hb
  unfold UtcDate.Before
  omega

/-- Aligning a month's day keeps the year. -/
theorem alignMonthlyDay_year (b : UtcDate) (dom : Option ℤ) :
    (alignMonthlyDay b dom).year = b.year := rfl

/-- Aligning a month's day keeps the month. -/
theorem alignMonthlyDay_month (b : UtcDate) (dom : Option ℤ) :
    (alignMonthlyDay b dom).month = b.month := rfl

/-- Aligning to a valid day-of-month yields a real date. -/
theorem alignMonthlyDay_normalized (b : UtcDate) (dom : Option ℤ)
    (hb : b.Normalized) (hdom : DayOfMonthOK dom) :
    (alignMonthlyDay b dom).Normalized := by
  obtain ⟨h1, h2, h3, h4⟩ := hb
  have hbd := daysInMonth_bounds b.year b.month
  refine ⟨h1, h2, ?_, ?_⟩
  · show 1 ≤ min (dom.getD b.day) (daysInMonth b.year b.month)
    cases dom with
    | none => exact le_min h3 (by omega)
    | some v => exact le_min hdom.1 (by omega)
  · show min (dom.getD b.day) (daysInMonth b.year b.month) ≤ daysInMonth b.year b.month
    exact min_le_right _ _

/-- The configured interval of a rule is always at least 1. -/
theorem getInterval_pos (rule : RecurringRule) : 1 ≤ getInterval rule := by
  unfold getInterval
  cases hI : rule.interval with
  | none =>
    dsimp only
    omega
  | some i =>
    dsimp only
    split <;> omega

/-- A step of getNextOccurrence keeps dates real. -/
theorem getNextOccurrence_normalized (rule : RecurringRule) {p : UtcDate}
    (hr : ValidRule rule) (hp : p.Normalized) :
    (getNextOccurrence rule p).Normalized := by
  unfold getNextOccurrence
  cases hf : rule.frequency with
  | weekly => exact addDaysUtc_normalized _ hp
  | biweekly => exact addDaysUtc_normalized _ hp
  | monthly =>
    exact alignMonthlyDay_normalized _ _
      (addMonthsUtc_normalized hp (getInterval_pos rule)) hr.2

/-- A step of getNextOccurrence moves strictly forward in calendar
time. -/
theorem getNextOccurrence_before (rule : RecurringRule) {p : UtcDate}
    (_hr : ValidRule rule) (hp : p.Normalized) :
    p.Before (getNextOccurrence rule p) := by
  have hI := getInterval_pos rule
  unfold getNextOccurrence
  cases hf : rule.frequency with
  | weekly =>
    rw [show getFrequencyDays RecurringFrequency.weekly = 7 from rfl]
    have hpos : 0 < (7 * getInterval rule).toNat := by omega
    obtain ⟨m, hm⟩ : ∃ m, (7 * getInterval rule).toNat = m + 1 :=
      ⟨(7 * getInterval rule).toNat - 1, by omega⟩
    rw [hm]
    exact addDaysUtc_succ_before m hp
  | biweekly =>
    rw [show getFrequencyDays RecurringFrequency.biweekly = 14 from rfl]
    have hpos : 0 < (14 * getInterval rule).toNat := by omega
    obtain ⟨m, hm⟩ : ∃ m, (14 * getInterval rule).toNat = m + 1 :=
      ⟨(14 * getInterval rule).toNat - 1, by omega⟩
    rw [hm]
    exact addDaysUtc_succ_before m hp
  | monthly =>
    obtain ⟨hid, hm0, hm1, _⟩ :=
      addMonthsUtc_spec p (getInterval rule) hp.1 (getInterval_pos rule)
    obtain ⟨hb1, hb2, _, _⟩ := hp
    unfold UtcDate.Before
    rw [alignMonthlyDay_year, alignMonthlyDay_month]
    omega

/-- The linearization approxDays is strictly monotone on real dates. -/
theorem approxDays_lt {a b : UtcDate} (ha : a.Normalized) (hb : b.Normalized)
    (h : a.Before b) : approxDays a < approxDays b := by
  obtain ⟨a1, a2, a3, a4⟩ := ha
  obtain ⟨b1, b2, b3, b4⟩ := hb
  have hda := daysInMonth_bounds a.year a.month
  have hdb := daysInMonth_bounds b.year b.month
  unfold UtcDate.Before at h
  unfold approxDays
  omega

/-- With enough fuel the catch-up loop terminates and returns the first
iterate of getNextOccurrence that is on or after the target date. -/
theorem computeAux_some (rule : RecurringRule) (target : UtcDate)
    (hr : ValidRule rule) (ht : target.Normalized) :
    ∀ (fuel : ℕ) (p : UtcDate), p.Normalized →
      (approxDays target - approxDays p).toNat < fuel →
      ∃ r, computeNextOccurrenceAux rule target fuel p = some r ∧
        ¬ r.Before target ∧
        ∃ k, r = (getNextOccurrence rule)^[k] p ∧
          ∀ j < k, ((getNextOccurrence rule)^[j] p).Before target := by
  intro fuel
  induction fuel with
  | zero =>
    intro p hp hlt
    exact absurd hlt (by omega)
  | succ fuel ih =>
    intro p hp hlt
    by_cases hb : p.Before target
    · have hpn := getNextOccurrence_normalized rule hr hp
      have hbp := getNextOccurrence_before rule hr hp
      have h1 : approxDays p < approxDays target := approxDays_lt hp ht hb
      have h2 : approxDays p < approxDays (getNextOccurrence rule p) :=
        approxDays_lt hp hpn hbp
      have hlt2 : (approxDays target - approxDays (getNextOccurrence rule p)).toNat
          < fuel := by omega
      rcases ih (getNextOccurrence rule p) hpn hlt2 with ⟨r, hrun, hnb, k, hk, hall⟩
      refine ⟨r, ?_, hnb, k + 1, ?_, ?_⟩
      · unfold computeNextOccurrenceAux
        rw [if_pos hb]
        exact hrun
      · rw [Function.iterate_succ_apply]
        exact hk
      · intro j hj
        cases j with
        | zero => exact hb
        | succ j =>
          rw [Function.iterate_succ_apply]
          exact hall j (by omega)
    · refine ⟨p, ?_, hb, 0, rfl, fun j hj => absurd hj (by omega)⟩
      unfold computeNextOccurrenceAux
      rw [if_neg hb]

/-- C7: for every valid rule and every real target date the catch-up
loop of computeNextOccurrence terminates (a fuel bounded by the elapsed
span suffices, since every getNextOccurrence step strictly increases the
date) and returns the first element of the rule's occurrence sequence,
started at buildInitialNextOccurrence, that is on or after the target
date. -/
theorem computeNextOccurrence_first (rule : RecurringRule) (target : UtcDate)
    (hr : ValidRule rule) (ht : target.Normalized) :
    ∃ fuel r,
      computeNextOccurrenceAux rule target fuel (buildInitialNextOccurrence rule) =
        some r ∧
      ¬ r.Before target ∧
      ∃ k, r = occSeq rule k ∧ ∀ j < k, (occSeq rule j).Before target := by
  have hinit : (buildInitialNextOccurrence rule).Normalized := by
    unfold buildInitialNextOccurrence
    cases hf : rule.frequency with
    | weekly => exact hr.1
    | biweekly => exact hr.1
    | monthly => exact alignMonthlyDay_normalized _ _ hr.1 hr.2
  rcases computeAux_some rule target hr ht
    ((approxDays target - approxDays (buildInitialNextOccurrence rule)).toNat + 1)
    (buildInitialNextOccurrence rule) hinit (by omega)
    with ⟨r, hrun, hnb, k, hk, hall⟩
  exact ⟨_, r, hrun, hnb, k, hk, hall⟩

/-- Witness for C7: the weekly rule starting 2026-01-01 caught up to
2026-01-10. -/
theorem computeNextOccurrence_first_witness :
    ∃ fuel r,
      computeNextOccurrenceAux weeklyRule { year := 2026, month := 0, day := 10 }
        fuel (buildInitialNextOccurrence weeklyRule) = some r ∧
      ¬ r.Before { year := 2026, month := 0, day := 10 } ∧
      ∃ k, r = occSeq weeklyRule k ∧
        ∀ j < k, (occSeq weeklyRule j).Before { year := 2026, month := 0, day := 10 } :=
  computeNextOccurrence_first weeklyRule { year := 2026, month := 0, day := 10 }
    (by decide) (by decide)

/-- C6: a monthly rule with an explicit dayOfMonth advances the month
component by its interval (carrying year rollover) and lands on the day
min(dayOfMonth, length of the target month), independent of the source
month; in particular 2028-01-31 with day 31 advances to 2028-02-29. -/
theorem getNextOccurrence_monthly_clamps (rule : RecurringRule) (d : UtcDate)
    (dom : ℤ)
    (hf : rule.frequency = .monthly)
    (hdom : rule.dayOfMonth = some dom)
    (hd : d.Normalized) :
    (getNextOccurrence rule d).year * 12 + (getNextOccurrence rule d).month =
      d.year * 12 + d.month + getInterval rule ∧
    0 ≤ (getNextOccurrence rule d).month ∧ (getNextOccurrence rule d).month < 12 ∧
    (getNextOccurrence rule d).day =
      min dom
        (daysInMonth (getNextOccurrence rule d).year (getNextOccurrence rule d).month) ∧
    getNextOccurrence monthlyRuleLeap { year := 2028, month := 0, day := 31 } =
      { year := 2028, month := 1, day := 29 } := by
  have hstep : getNextOccurrence rule d =
      alignMonthlyDay (addMonthsUtc d (getInterval rule)) rule.dayOfMonth := by
    unfold getNextOccurrence
    rw [hf]
  rw [hstep, hdom]
  obtain ⟨hid, h0, h1, hday⟩ :=
    addMonthsUtc_spec d (getInterval rule) hd.1 (getInterval_pos rule)
  exact ⟨hid, h0, h1, rfl, by decide⟩

/-- Witness for C6: the monthly day-31 rule steps from 2026-01-31 to a
clamped 2026-02-28. -/
theorem getNextOccurrence_monthly_clamps_witness :
    (getNextOccurrence monthlyRule31 { year := 2026, month := 0, day := 31 }).year * 12 +
        (getNextOccurrence monthlyRule31 { year := 2026, month := 0, day := 31 }).month =
      (2026 : ℤ) * 12 + 0 + getInterval monthlyRule31 ∧
    0 ≤ (getNextOccurrence monthlyRule31 { year := 2026, month := 0, day := 31 }).month ∧
    (getNextOccurrence monthlyRule31 { year := 2026, month := 0, day := 31 }).month < 12 ∧
    (getNextOccurrence monthlyRule31 { year := 2026, month := 0, day := 31 }).day =
      min 31
        (daysInMonth
          (getNextOccurrence monthlyRule31 { year := 2026, month := 0, day := 31 }).year
          (getNextOccurrence monthlyRule31 { year := 2026, month := 0, day := 31 }).month) ∧
    getNextOccurrence monthlyRuleLeap { year := 2028, month := 0, day := 31 } =
      { year := 2028, month := 1, day := 29 } :=
  getNextOccurrence_monthly_clamps monthlyRule31 { year := 2026, month := 0, day := 31 }
    31 rfl rfl (by decide)

end BudgetTracker
